import Mathlib

/-!
Verification model of the ned search/replace tool (src/main.rs).

The regular-expression engine, ANSI painting and glob matching are external
collaborators of the core; they are modelled as abstract functions (a `Regex`
structure of match/capture/iterate/substitute operations, a `paint` function,
and `String → Bool` glob predicates).  A literal-string instantiation
`litRegex` of the regex interface makes every definition executable on
concrete inputs.  Text positions are modelled at character granularity (the
Rust code uses byte indices; on the ASCII inputs used in concrete
evaluations these coincide).
-/

namespace Ned

/-- Capture groups of one successful regex match (regex crate `Captures`):
`capAt i` models `captures.at(i)` and `name g` models `captures.name(g)`. -/
structure Caps where
  capAt : Nat → Option String
  name : String → Option String

/-- The regex engine interface consumed by main.rs: `is_match`, `captures`,
`find_iter` (non-overlapping match spans), and `replace_all`
(text, template → result). -/
structure Regex where
  isMatch : String → Bool
  captures : String → Option Caps
  findIter : String → List (Nat × Nat)
  replaceAll : String → String → String

/-- The option flags read from `matches` in `process_file` (main.rs 317-324). -/
structure ModeConfig where
  group : Option String
  line_oriented : Bool
  no_match : Bool
  only_matches : Bool
  quiet : Bool
  replace : Option String
  stdout : Bool
  colors : Bool
deriving DecidableEq

inductive SourceKind where
  | stdin : SourceKind
  | file : SourceKind
deriving DecidableEq

/-- A data source (main.rs `Source`): its kind, and the bytes it stores,
`none` standing for bytes that are not valid UTF-8 (so that
`String::from_utf8` fails on them).  For a file source, `raw` is also the
file's stored content, updated by an in-place replace. -/
structure SourceM where
  kind : SourceKind
  raw : Option String
deriving DecidableEq

/-- First character is '.': models Rust `file_name.starts_with(".")`. -/
def startsWithDot (s : String) : Bool :=
  match s.data with
  | [] => false
  | c :: _ => c == '.'

/-- First character is a newline: models `line.starts_with("\n")`. -/
def startsWithNL (s : String) : Bool :=
  match s.data with
  | [] => false
  | c :: _ => c == '\n'

/-- Last character is a newline. -/
def endsNL (s : String) : Bool := s.data.getLast? == some '\n'

/-- Rust slice `text[a..b]` (character granularity). -/
def sliceStr (s : String) (a b : Nat) : String :=
  String.mk ((s.data.drop a).take (b - a))

/-- Concatenation of the byte sequences written by successive writes. -/
def concatStrs : List String → String
  | [] => ""
  | s :: ss => s ++ concatStrs ss

/-- Strip one trailing carriage return (Rust `lines` strips `\r\n`). -/
def stripCR (l : List Char) : List Char :=
  if l.getLast? == some '\r' then l.dropLast else l

def splitLinesAux (acc : List Char) : List Char → List (List Char)
  | [] => if acc.isEmpty then [] else [acc.reverse]
  | c :: rest =>
    if c == '\n' then stripCR acc.reverse :: splitLinesAux [] rest
    else splitLinesAux (c :: acc) rest

/-- Rust `str::lines`: segments delimited by a newline, the delimiter (and a
carriage return before it) excluded, a final newline optional. -/
def rustLines (s : String) : List String := (splitLinesAux [] s.data).map String.mk

/-- Does `p` occur (contiguously) in the second list? -/
def occursL (p : List Char) : List Char → Bool
  | [] => p.isPrefixOf ([] : List Char)
  | c :: rest => p.isPrefixOf (c :: rest) || occursL p rest

/-- Replacement of non-overlapping occurrences of a literal pattern,
left to right; the fuel (instantiated with the text length) makes the
recursion structural. -/
def replaceAllFuel (p r : List Char) : Nat → List Char → List Char
  | 0, s => s
  | _ + 1, [] => []
  | fuel + 1, c :: rest =>
    if !p.isEmpty && p.isPrefixOf (c :: rest) then
      r ++ replaceAllFuel p r fuel ((c :: rest).drop p.length)
    else
      c :: replaceAllFuel p r fuel rest

/-- Spans of non-overlapping occurrences of a literal pattern. -/
def findIterFuel (p : List Char) : Nat → Nat → List Char → List (Nat × Nat)
  | 0, _, _ => []
  | _ + 1, _, [] => []
  | fuel + 1, pos, c :: rest =>
    if !p.isEmpty && p.isPrefixOf (c :: rest) then
      (pos, pos + p.length) :: findIterFuel p fuel (pos + p.length) ((c :: rest).drop p.length)
    else
      findIterFuel p fuel (pos + 1) rest

/-- The external regex engine instantiated at a literal (metacharacter-free)
pattern: `isMatch` is substring occurrence, `replaceAll` rewrites
non-overlapping occurrences left to right, group 0 captures the literal. -/
def litRegex (p : String) : Regex where
  isMatch := fun s => occursL p.data s.data
  captures := fun s =>
    if occursL p.data s.data then
      some { capAt := fun i => if i == 0 then some p else none
             name := fun _ => none }
    else none
  findIter := fun s => findIterFuel p.data s.data.length 0 s.data
  replaceAll := fun s r => String.mk (replaceAllFuel p.data r.data s.data.length s.data)

/-- One colorized piece of text:
`re.replace_all(matched, color.paint("$0"))` (main.rs 371, 384, 415, 424). -/
def colorize (re : Regex) (paint : String → String) (colors : Bool) (s : String) : String :=
  if colors then re.replaceAll s (paint "$0") else s

/-- The closure `process_text` of `process_file` (main.rs 360-434), as a pure
function from the prefix, unit text and suffix to (bytes written, returned
code).  The code is 0 on the first three branches and 1 when the default
branch does not match; the caller discards it via `try!`. -/
def process_text (re : Regex) (cfg : ModeConfig) (paint : String → String)
    (colors : Bool) (pre text post : String) : String × Nat :=
  match cfg.group with
  | some g =>
    match re.captures text with
    | some caps =>
      let body :=
        match g.trim.toNat? with
        | some index =>
          match caps.capAt index with
          | some matched => colorize re paint colors matched
          | none => ""
        | none =>
          match caps.name g with
          | some matched => colorize re paint colors matched
          | none => ""
      (pre ++ body ++ post, 0)
    | none => ("", 0)
  | none =>
    if cfg.no_match then
      if !re.isMatch text then (pre ++ text ++ post, 0) else ("", 0)
    else if re.isMatch text then
      let body :=
        if cfg.only_matches then
          concatStrs ((re.findIter text).map fun sp => colorize re paint colors (sliceStr text sp.1 sp.2))
        else colorize re paint colors text
      (pre ++ body ++ post, 0)
    else ("", 1)

/-- Seek to the start and write `newC` over `old` WITHOUT truncating
(main.rs 338-339): bytes of `old` beyond `newC`'s length survive. -/
def writeAt0 (newC old : String) : String :=
  String.mk (newC.data ++ old.data.drop newC.data.length)

/-- The per-line records written by the `line_oriented` loop (main.rs 436-444). -/
def lineRecords (re : Regex) (cfg : ModeConfig) (paint : String → String)
    (colors : Bool) (content : String) : List String :=
  (rustLines content).enum.map fun p =>
    let pre := if p.1 == 0 && startsWithNL p.2 then "\n" else ""
    (process_text re cfg paint colors pre p.2 "\n").1

/-- The message of a failed `String::from_utf8` (its exact wording is
irrelevant to the model). -/
def utf8ErrorMsg : String := "invalid utf-8"

/-- `process_file` (main.rs 295-450): returns the bytes written to the output
sink, the returned exit code, and the source's state after any in-place
write.  `Except.error` models an early `try!` return. -/
def process_file (re : Regex) (cfg : ModeConfig) (paint : String → String)
    (src : SourceM) : Except String (String × Nat × SourceM) :=
  match src.raw with
  | none => .error utf8ErrorMsg
  | some content =>
    let colors := cfg.colors && (cfg.stdout || cfg.replace.isNone)
    match cfg.replace with
    | some rep =>
      let rep := if colors then paint rep else rep
      let newContent := re.replaceAll content rep
      if cfg.stdout then
        .ok (if cfg.quiet then "" else newContent, 0, src)
      else
        match src.kind with
        | .file => .ok ("", 0, ⟨.file, some (writeAt0 newContent content)⟩)
        | .stdin => .ok ("", 0, src)
    | none =>
      if cfg.quiet then
        .ok ("", if re.isMatch content then 0 else 1, src)
      else if cfg.line_oriented then
        .ok (concatStrs (lineRecords re cfg paint colors content), 0, src)
      else
        .ok ((process_text re cfg paint colors "" content "").1, 0, src)

/-- `process_files` (main.rs 282-293): processes every file in order,
concatenating the output; the exit code variable is OVERWRITTEN on each
iteration, so the run result is the last file's code (0 for an empty list). -/
def process_files (re : Regex) (cfg : ModeConfig) (paint : String → String) :
    List SourceM → Except String (String × Nat × List SourceM)
  | [] => .ok ("", 0, [])
  | f :: fs =>
    match process_file re cfg paint f with
    | .error e => .error e
    | .ok (o, code, f2) =>
      match process_files re cfg paint fs with
      | .error e => .error e
      | .ok (o2, code2, fs2) =>
        .ok (o ++ o2, if fs.isEmpty then code else code2, f2 :: fs2)

mutual
inductive FSEntry where
  | file : String → FSEntry
  | dir : String → FSList → FSEntry
inductive FSList where
  | nil : FSList
  | cons : FSEntry → FSList → FSList
end

/-- File-selection criteria of `get_files` (main.rs 225-241).  Glob patterns
are modelled as base-name predicates (the glob crate is an external
collaborator); symlink following is not modelled (no symlinks in `FSEntry`). -/
structure FileSelectionCriteria where
  recursive : Bool
  includes : List (String → Bool)
  excludes : List (String → Bool)
  exclude_dir : List (String → Bool)
  all : Bool

/-- The `filter_entry` closure (main.rs 249-261): non-directories always
pass; a directory passes unless it matches an exclude-dir glob or is hidden
while `all` is unset. -/
def filterEntry (crit : FileSelectionCriteria) (name : String) (isDir : Bool) : Bool :=
  !isDir || !(crit.exclude_dir.any (fun g => g name) || (!crit.all && startsWithDot name))

/-- The yield condition (main.rs 266-270): a regular file that passes the
include globs (vacuously when there are none), the exclude globs, and the
hidden filter. -/
def yieldFile (crit : FileSelectionCriteria) (name : String) (isDir : Bool) : Bool :=
  !isDir &&
    (crit.includes.isEmpty || crit.includes.any (fun g => g name)) &&
    !(crit.excludes.any (fun g => g name) || (!crit.all && startsWithDot name))

mutual
/-- Walk one root as walkdir does: yield the entry if the `filter_entry`
closure passes, then descend while the depth budget allows.  `fuel` models
walkdir's depth limit: `1` for a non-recursive walk (`max_depth(1)`), and
any value at least the tree's depth for a recursive walk. -/
def walkF (fe : String → Bool → Bool) (fuel : Nat) : FSEntry → List (String × Bool)
  | .file n => if fe n false then [(n, false)] else []
  | .dir n cs =>
    if fe n true then (n, true) :: (if fuel == 0 then [] else walkFs fe (fuel - 1) cs)
    else []
def walkFs (fe : String → Bool → Bool) (fuel : Nat) : FSList → List (String × Bool)
  | .nil => []
  | .cons e es => walkF fe fuel e ++ walkFs fe fuel es
end

mutual
def depthF : FSEntry → Nat
  | .file _ => 0
  | .dir _ cs => depthFs cs + 1
def depthFs : FSList → Nat
  | .nil => 0
  | .cons e es => max (depthF e) (depthFs es)
end

def walkRoot (crit : FileSelectionCriteria) (t : FSEntry) : List (String × Bool) :=
  walkF (filterEntry crit) (if crit.recursive then depthF t else 1) t

/-- The entry loop of `get_files` (main.rs 261-276): `try!` on each walk
item — the first error aborts the whole selection — then the yield filter. -/
def collectFiles (crit : FileSelectionCriteria) :
    List (Except String (String × Bool)) → Except String (List String)
  | [] => .ok []
  | .error e :: _ => .error e
  | .ok (n, d) :: rest =>
    match collectFiles crit rest with
    | .error e => .error e
    | .ok fs => .ok (if yieldFile crit n d then n :: fs else fs)

/-- `get_files` (main.rs 214-280) over the walk streams of its roots. -/
def get_files (crit : FileSelectionCriteria) :
    List (List (Except String (String × Bool))) → Except String (List String)
  | [] => .ok []
  | root :: roots =>
    match collectFiles crit root with
    | .error e => .error e
    | .ok fs =>
      match get_files crit roots with
      | .error e => .error e
      | .ok fs2 => .ok (fs ++ fs2)

def collectPure (crit : FileSelectionCriteria) (l : List (String × Bool)) : List String :=
  l.filterMap fun p => if yieldFile crit p.1 p.2 then some p.1 else none

/-- Selection run over error-free filesystem trees. -/
def get_files_tree (crit : FileSelectionCriteria) (ts : List FSEntry) :
    Except String (List String) :=
  get_files crit (ts.map fun t => (walkRoot crit t).map Except.ok)

def get_files_pure (crit : FileSelectionCriteria) (ts : List FSEntry) : List String :=
  (ts.map fun t => collectPure crit (walkRoot crit t)).flatten


/-! ## Shared concrete inputs and supporting lemmas -/

/-- A file source holding valid UTF-8 content. -/
def fileSrc (s : String) : SourceM := ⟨.file, some s⟩

/-- Quiet-mode configuration (no replace). -/
def cfgQuiet : ModeConfig := ⟨none, false, false, false, true, none, false, false⟩

/-- Default whole-file mode configuration. -/
def cfgDefault : ModeConfig := ⟨none, false, false, false, false, none, false, false⟩

/-- Inverted-match whole-file mode configuration. -/
def cfgInvert : ModeConfig := ⟨none, false, true, false, false, none, false, false⟩

/-- Replace-mode configuration. -/
def cfgRep (stdoutP quietP : Bool) (rep : String) : ModeConfig :=
  ⟨none, false, false, false, quietP, some rep, stdoutP, false⟩

/-- Selection criteria with no globs. -/
def critNoGlobs (allP : Bool) : FileSelectionCriteria := ⟨false, [], [], [], allP⟩

/-- A directory holding a hidden and a visible file. -/
def treeHidden : FSEntry := .dir "d" (.cons (.file ".hidden") (.cons (.file "visible") .nil))

theorem data_append (s t : String) : (s ++ t).data = s.data ++ t.data := rfl

theorem endsNL_append_right (s t : String) (h : endsNL t = true) :
    endsNL (s ++ t) = true := by
  unfold endsNL at h ⊢
  rw [data_append]
  have ht : t.data ≠ [] := by
    intro he
    rw [he] at h
    simp [List.getLast?] at h
  rw [List.getLast?_append_of_ne_nil _ ht]
  exact h

theorem endsNL_append_nl (s : String) : endsNL (s ++ "\n") = true :=
  endsNL_append_right s "\n" rfl

theorem concatStrs_nl (l : List String) (h : ∀ s ∈ l, s = "" ∨ endsNL s = true) :
    concatStrs l = "" ∨ endsNL (concatStrs l) = true := by
  induction l with
  | nil => exact Or.inl rfl
  | cons s ss ih =>
    have hs := h s (by simp)
    have hss := ih fun x hx => h x (by simp [hx])
    unfold concatStrs
    rcases hss with h1 | h1
    · rw [h1]
      rcases hs with h2 | h2
      · exact Or.inl (by rw [h2]; rfl)
      · refine Or.inr ?_
        unfold endsNL at h2 ⊢
        rw [data_append]
        simpa using h2
    · exact Or.inr (endsNL_append_right _ _ h1)

theorem replaceAllFuel_of_not_occurs (p r : List Char) :
    ∀ (fuel : Nat) (s : List Char), occursL p s = false → replaceAllFuel p r fuel s = s := by
  intro fuel
  induction fuel with
  | zero => intro s _; rfl
  | succ k ih =>
    intro s h
    cases s with
    | nil => rfl
    | cons c rest =>
      unfold occursL at h
      rw [Bool.or_eq_false_iff] at h
      obtain ⟨h1, h2⟩ := h
      unfold replaceAllFuel
      rw [h1]
      simp [ih rest h2]

/-- The first half of the replace contract does hold of the engine model:
a pattern that does not occur in the content leaves it unchanged. -/
theorem litRegex_replaceAll_of_not_occurs (p r c : String)
    (h : occursL p.data c.data = false) : (litRegex p).replaceAll c r = c := by
  show String.mk (replaceAllFuel p.data r.data c.data.length c.data) = c
  rw [replaceAllFuel_of_not_occurs p.data r.data _ c.data h]

/-! ## Claims -/

/-- C1: the claim says a quiet run's overall result is the logical OR of the
per-file match booleans, position-independent.  The code (main.rs 289:
`exit_code = try!(process_file(...))`) overwrites the exit code on every
iteration, so the run result is the LAST file's result: with a match in the
first of two files and none in the second, the run reports exit code 1
("no matches"); swapping the files reports 0.  This contradicts the
program's own help text (main.rs 119-121: "returns an exit code of 0 if a
match is found in ANY file"). -/
theorem claim_C1_code_eval :
    process_files (litRegex "foo") cfgQuiet id [fileSrc "foo", fileSrc "bar"]
        = .ok ("", 1, [fileSrc "foo", fileSrc "bar"])
    ∧ process_files (litRegex "foo") cfgQuiet id [fileSrc "bar", fileSrc "foo"]
        = .ok ("", 0, [fileSrc "bar", fileSrc "foo"])
    ∧ (litRegex "foo").isMatch "foo" = true
    ∧ (litRegex "foo").isMatch "bar" = false :=
  ⟨rfl, rfl, rfl, rfl⟩

/-- C2: the claim's first half holds (a non-occurring pattern leaves the
content unchanged — see `litRegex_replaceAll_of_not_occurs`), but the code
computes no `changed` flag at all: the replace path of `process_file`
(main.rs 326-349) returns the exit code 0 ("matches found/replaced" per the
help text) unconditionally, even though the pattern "foo" does not occur in
the content "bar" and nothing changed.  The help text (main.rs 114-116)
says exit code 1 means "no matches". -/
theorem claim_C2_code_eval :
    (litRegex "foo").replaceAll "bar" "X" = "bar"
    ∧ occursL "foo".data "bar".data = false
    ∧ process_file (litRegex "foo") (cfgRep false false "X") id (fileSrc "bar")
        = .ok ("", 0, fileSrc "bar") :=
  ⟨rfl, rfl, rfl⟩

/-- C4: the claim says an in-place replacement truncates the file, leaving no
residue when the new content is shorter.  The code (main.rs 338-339) only
seeks to the start and writes — it never truncates — so replacing the whole
content "aaaa" by "b" leaves the file holding "baaa", not "b". -/
theorem claim_C4_code_eval :
    process_file (litRegex "aaaa") (cfgRep false false "b") id (fileSrc "aaaa")
        = .ok ("", 0, ⟨.file, some "baaa"⟩)
    ∧ (litRegex "aaaa").replaceAll "aaaa" "b" = "b"
    ∧ ("baaa" : String) ≠ "b" :=
  ⟨rfl, rfl, by decide⟩

/-- C6 counterexample: the claim says an unreadable entry is reported and
traversal continues.  In the code (main.rs 262: `try!`) the first erroneous
walk item makes `get_files` return the error: the whole selection aborts
and neither the file collected before the error nor the one after it is
yielded. -/
theorem claim_C6_counterexample :
    get_files (critNoGlobs false)
        [[.ok ("a.txt", false), .error "unreadable", .ok ("b.txt", false)]]
      = .error "unreadable" := rfl

theorem collectFiles_append_error (crit : FileSelectionCriteria)
    (pre : List (String × Bool)) (e : String)
    (post : List (Except String (String × Bool))) :
    collectFiles crit (pre.map Except.ok ++ Except.error e :: post) = .error e := by
  induction pre with
  | nil => rfl
  | cons hd tl ih =>
    obtain ⟨n, d⟩ := hd
    unfold collectFiles
    simp only [List.map_cons, List.cons_append]
    rw [ih]

/-- C6 amended: an entry that cannot be read makes `get_files` return that
error for the whole run — every walk item before it is discarded, every
item and root after it is never examined, and no file list is produced. -/
theorem claim_C6_amended :
    ∀ (crit : FileSelectionCriteria) (pre : List (String × Bool)) (e : String)
      (post : List (Except String (String × Bool)))
      (roots : List (List (Except String (String × Bool)))),
      get_files crit ((pre.map Except.ok ++ Except.error e :: post) :: roots)
        = .error e := by
  intro crit pre e post roots
  unfold get_files
  rw [collectFiles_append_error]

/-- C7 counterexample: the claim says a decode failure is never fatal to the
run.  In the code the `try!` on `String::from_utf8` (main.rs 314) propagates
through the `try!` in `process_files` (main.rs 289): with a non-UTF-8 first
file the whole run errors out, and the second file — which contains a
match — is never processed. -/
theorem claim_C7_counterexample :
    process_files (litRegex "foo") cfgQuiet id [⟨.file, none⟩, fileSrc "foo"]
        = .error utf8ErrorMsg
    ∧ (litRegex "foo").isMatch "foo" = true :=
  ⟨rfl, rfl⟩

/-- C7 amended: there is no `ignore_non_utf8` handling in main.rs (its
`make_opts` does not even define the option); a file whose content fails
UTF-8 validation makes `process_file` return an error which `process_files`
propagates immediately, aborting the run and skipping all remaining files,
whatever the mode configuration. -/
theorem claim_C7_amended :
    ∀ (re : Regex) (cfg : ModeConfig) (paint : String → String) (k : SourceKind)
      (rest : List SourceM),
      process_files re cfg paint (⟨k, none⟩ :: rest) = .error utf8ErrorMsg := by
  intro re cfg paint k rest
  rfl

/-- C3 counterexample: in inverted-match mode on a unit the pattern DOES
match, the claim says the unit must not count toward the run's "found"
result (exit code 1, "no matches", if it is the only unit).  The code emits
nothing (correct) but returns exit code 0 — in non-quiet mode `process_file`
discards `process_text`'s code and always reports 0, "matches found". -/
theorem claim_C3_counterexample :
    process_file (litRegex "foo") cfgInvert id (fileSrc "foo")
        = .ok ("", 0, fileSrc "foo")
    ∧ (litRegex "foo").isMatch "foo" = true :=
  ⟨rfl, rfl⟩

/-- C3 amended: with `no_match` set, the unit's original text (wrapped in
the caller's prefix and suffix — a newline suffix in line mode, nothing in
whole-file mode) is emitted iff the pattern does not match, and nothing is
emitted otherwise; the outcome does not affect the run result, which in
non-quiet mode is always exit code 0. -/
theorem claim_C3_amended :
    (∀ (re : Regex) (lo om q st colorsB : Bool) (paint : String → String)
      (colors : Bool) (pre text post : String),
      process_text re ⟨none, lo, true, om, q, none, st, colorsB⟩ paint colors pre text post
        = if re.isMatch text then ("", 0) else (pre ++ text ++ post, 0))
    ∧ (∀ (re : Regex) (lo om st colorsB : Bool) (paint : String → String)
      (k : SourceKind) (content : String),
      ∃ out,
        process_file re ⟨none, lo, true, om, false, none, st, colorsB⟩ paint ⟨k, some content⟩
          = .ok (out, 0, ⟨k, some content⟩)) := by
  constructor
  · intro re lo om q st colorsB paint colors pre text post
    unfold process_text
    cases h : re.isMatch text <;> simp [h]
  · intro re lo om st colorsB paint k content
    cases lo
    · exact ⟨_, rfl⟩
    · exact ⟨_, rfl⟩

/-- C5 counterexample: in whole-file default mode on content that does not
end with a newline, the emitted record is the content as-is: no newline is
appended (the claim says one is appended whenever the emitted text does not
already end with one). -/
theorem claim_C5_counterexample :
    process_file (litRegex "bar") cfgDefault id (fileSrc "bar")
        = .ok ("bar", 0, fileSrc "bar")
    ∧ endsNL "bar" = false :=
  ⟨rfl, rfl⟩

theorem processText_record_nl (re : Regex) (cfg : ModeConfig) (paint : String → String)
    (colors : Bool) (pre text : String) :
    (process_text re cfg paint colors pre text "\n").1 = ""
    ∨ endsNL (process_text re cfg paint colors pre text "\n").1 = true := by
  unfold process_text
  cases hg : cfg.group with
  | none =>
    cases hn : cfg.no_match with
    | true =>
      cases hm : re.isMatch text with
      | true => exact Or.inl (by simp [hm])
      | false => exact Or.inr (by simp [hm]; exact endsNL_append_nl _)
    | false =>
      cases hm : re.isMatch text with
      | true => exact Or.inr (by simp [hm]; exact endsNL_append_nl _)
      | false => exact Or.inl (by simp [hm])
  | some g =>
    cases hc : re.captures text with
    | none => exact Or.inl rfl
    | some caps => exact Or.inr (endsNL_append_nl _)

theorem lineRecords_nl (re : Regex) (cfg : ModeConfig) (paint : String → String)
    (colors : Bool) (content : String) :
    ∀ s ∈ lineRecords re cfg paint colors content, s = "" ∨ endsNL s = true := by
  intro s hs
  unfold lineRecords at hs
  rw [List.mem_map] at hs
  obtain ⟨p, _, rfl⟩ := hs
  exact processText_record_nl re cfg paint colors _ p.2

/-- C5 amended: in LINE-oriented mode the claim holds: every record written
for a line is passed the suffix "\n", so each nonempty record — and hence
the file's whole output — ends in exactly one newline (a line never contains
a newline itself, so none is doubled).  In WHOLE-FILE mode, however, the
emitted text is written as-is with an empty suffix: no newline is ever
appended. -/
theorem claim_C5_amended :
    (∀ (re : Regex) (cfg : ModeConfig) (paint : String → String) (colors : Bool)
      (pre text : String),
      (process_text re cfg paint colors pre text "\n").1 = ""
      ∨ endsNL (process_text re cfg paint colors pre text "\n").1 = true)
    ∧ (∀ (re : Regex) (g : Option String) (nm om st colorsB : Bool)
      (paint : String → String) (k : SourceKind) (content : String),
      ∃ out,
        process_file re ⟨g, true, nm, om, false, none, st, colorsB⟩ paint ⟨k, some content⟩
            = .ok (out, 0, ⟨k, some content⟩)
        ∧ (out = "" ∨ endsNL out = true))
    ∧ (∀ (re : Regex) (g : Option String) (nm om st colorsB : Bool)
      (paint : String → String) (k : SourceKind) (content : String),
      process_file re ⟨g, false, nm, om, false, none, st, colorsB⟩ paint ⟨k, some content⟩
        = .ok ((process_text re ⟨g, false, nm, om, false, none, st, colorsB⟩
                  paint colorsB "" content "").1,
               0, ⟨k, some content⟩)) := by
  refine ⟨fun re cfg paint colors pre text => processText_record_nl re cfg paint colors pre text,
    ?_, ?_⟩
  · intro re g nm om st colorsB paint k content
    refine ⟨_, rfl, ?_⟩
    exact concatStrs_nl _ (lineRecords_nl re _ paint _ content)
  · intro re g nm om st colorsB paint k content
    simp [process_file]

theorem collectPure_no_hidden (recb : Bool) (inc exc excd : List (String → Bool))
    (l : List (String × Bool)) :
    ((collectPure ⟨recb, inc, exc, excd, false⟩ l).all fun n => !startsWithDot n) = true := by
  induction l with
  | nil => rfl
  | cons p tl ih =>
    obtain ⟨n, d⟩ := p
    unfold collectPure at ih ⊢
    rw [List.filterMap_cons]
    by_cases hy : yieldFile ⟨recb, inc, exc, excd, false⟩ n d = true
    · have hnd : startsWithDot n = false := by
        by_contra hcon
        rw [Bool.not_eq_false] at hcon
        unfold yieldFile at hy
        simp [hcon] at hy
      simp only [hy, if_true, List.all_cons]
      rw [hnd, ih]
      rfl
    · rw [Bool.not_eq_true] at hy
      simpa [hy] using ih

theorem get_files_pure_no_hidden (recb : Bool) (inc exc excd : List (String → Bool))
    (ts : List FSEntry) :
    ((get_files_pure ⟨recb, inc, exc, excd, false⟩ ts).all fun n => !startsWithDot n) = true := by
  unfold get_files_pure
  induction ts with
  | nil => rfl
  | cons t ts ih =>
    rw [List.map_cons, List.flatten_cons, List.all_append]
    rw [collectPure_no_hidden, ih]
    rfl

/-- C8: hidden-entry policy, confirmed.  For the directory holding
`.hidden` and `visible`: selection without `all` yields only `visible`,
with `all` it yields both; and in general, with `all` unset, no yielded
file's base name starts with a dot, for any tree, depth mode and glob
sets. -/
theorem claim_C8 :
    get_files_tree (critNoGlobs false) [treeHidden] = .ok ["visible"]
    ∧ get_files_tree (critNoGlobs true) [treeHidden] = .ok [".hidden", "visible"]
    ∧ ∀ (recb : Bool) (inc exc excd : List (String → Bool)) (ts : List FSEntry),
        ((get_files_pure ⟨recb, inc, exc, excd, false⟩ ts).all fun n => !startsWithDot n)
          = true :=
  ⟨rfl, rfl, get_files_pure_no_hidden⟩

/-- Guard of the group-extraction branch's writes (main.rs 361-397): the
branch writes iff a group is requested and the pattern captures. -/
def writes_group (re : Regex) (cfg : ModeConfig) (text : String) : Bool :=
  cfg.group.isSome && (re.captures text).isSome

/-- Guard of the inverted-match branch's writes (main.rs 398-407). -/
def writes_no_match (re : Regex) (cfg : ModeConfig) (text : String) : Bool :=
  cfg.group.isNone && cfg.no_match && !re.isMatch text

/-- Guard of the default/only-matches branch's writes (main.rs 408-430). -/
def writes_default (re : Regex) (cfg : ModeConfig) (text : String) : Bool :=
  cfg.group.isNone && !cfg.no_match && re.isMatch text

/-- Bytes the group-extraction branch writes when its guard holds. -/
def group_emission (re : Regex) (cfg : ModeConfig) (paint : String → String)
    (colors : Bool) (pre text post : String) : String :=
  match cfg.group with
  | none => ""
  | some g =>
    match re.captures text with
    | none => ""
    | some caps =>
      let body :=
        match g.trim.toNat? with
        | some index =>
          match caps.capAt index with
          | some matched => colorize re paint colors matched
          | none => ""
        | none =>
          match caps.name g with
          | some matched => colorize re paint colors matched
          | none => ""
      pre ++ body ++ post

/-- Bytes the default/only-matches branch writes when its guard holds. -/
def default_emission (re : Regex) (cfg : ModeConfig) (paint : String → String)
    (colors : Bool) (pre text post : String) : String :=
  pre ++ (if cfg.only_matches then
      concatStrs ((re.findIter text).map fun sp =>
        colorize re paint colors (sliceStr text sp.1 sp.2))
    else colorize re paint colors text) ++ post

/-- C9: mode-resolution exclusivity, confirmed.  The three writing branches
of `process_text` have pairwise exclusive guards; the bytes written are
exactly those of the single applicable branch (or none); and the quiet path
of `process_file` never reaches `process_text` and writes nothing. -/
theorem claim_C9 :
    ∀ (re : Regex) (cfg : ModeConfig) (paint : String → String) (colors : Bool)
      (pre text post : String),
      ((writes_group re cfg text && writes_no_match re cfg text) = false
        ∧ (writes_group re cfg text && writes_default re cfg text) = false
        ∧ (writes_no_match re cfg text && writes_default re cfg text) = false)
      ∧ (process_text re cfg paint colors pre text post).1 =
          (if writes_group re cfg text then
            group_emission re cfg paint colors pre text post
           else if writes_no_match re cfg text then pre ++ text ++ post
           else if writes_default re cfg text then
            default_emission re cfg paint colors pre text post
           else "")
      ∧ (∀ (k : SourceKind) (content : String),
          process_file re
              ⟨cfg.group, cfg.line_oriented, cfg.no_match, cfg.only_matches,
               true, none, cfg.stdout, cfg.colors⟩ paint ⟨k, some content⟩
            = .ok ("", if re.isMatch content then 0 else 1, ⟨k, some content⟩)) := by
  intro re cfg paint colors pre text post
  refine ⟨⟨?_, ?_, ?_⟩, ?_, ?_⟩
  · cases hg : cfg.group <;>
      simp [writes_group, writes_no_match, writes_default, hg]
  · cases hg : cfg.group <;>
      simp [writes_group, writes_no_match, writes_default, hg]
  · cases hm : re.isMatch text <;>
      simp [writes_no_match, writes_default, hm]
  · cases hg : cfg.group with
    | none =>
      cases hn : cfg.no_match with
      | true =>
        cases hm : re.isMatch text <;>
          simp [process_text, writes_group, writes_no_match, writes_default, hg, hn, hm]
      | false =>
        cases hm : re.isMatch text <;>
          simp [process_text, writes_group, writes_no_match, writes_default,
            default_emission, hg, hn, hm]
    | some g =>
      cases hc : re.captures text <;>
        simp [process_text, writes_group, writes_no_match, writes_default,
          group_emission, hg, hc]
  · intro k content
    rfl

/-- C10: confirmed.  With replace set and stdout unset, the in-place
rewrite (seek to start, write the substituted content) happens for a file
source whatever the quiet flag — the result does not depend on `quiet` at
all; with stdout set, quiet suppresses the write to the output sink and
the source is left untouched. -/
theorem claim_C10 :
    ∀ (re : Regex) (paint : String → String) (g : Option String)
      (lo nm om colorsB q : Bool) (rep content : String),
      process_file re ⟨g, lo, nm, om, q, some rep, false, colorsB⟩ paint ⟨.file, some content⟩
          = .ok ("", 0, ⟨.file, some (writeAt0 (re.replaceAll content rep) content)⟩)
      ∧ process_file re ⟨g, lo, nm, om, true, some rep, true, colorsB⟩ paint ⟨.file, some content⟩
          = .ok ("", 0, ⟨.file, some content⟩)
      ∧ process_file re ⟨g, lo, nm, om, false, some rep, true, colorsB⟩ paint ⟨.file, some content⟩
          = .ok (re.replaceAll content (if colorsB then paint rep else rep), 0,
                 ⟨.file, some content⟩) := by
  intro re paint g lo nm om colorsB q rep content
  refine ⟨?_, ?_, ?_⟩ <;> cases colorsB <;> rfl

end Ned
